import Mathlib

/-!
Verification development for the anamorphic-mesh reduction program
(`reduce_geometry.py`, `view_rendering.py`).

Shallow embedding notes:
* Mesh coordinates are modelled as exact rationals (`ℚ`); the Python code
  works with floats, but every comparison the claims are about
  (`min`, `<=`, `>`, squared centroid distances) is an order comparison
  that the rational model reproduces faithfully.
* The rendered RGBA images are modelled as flat lists of pixels with
  rational channel values; `base_mask.size` is the pixel count.
* `trimesh.Trimesh.split` and the matplotlib rasterizer are external
  libraries; they enter the model as explicit function parameters
  (`splitRaw`, `render`).  `mesh.split` can raise `ImportError`
  (missing graph engine), hence `splitRaw` returns `Except`.
* `np.linalg.norm(a - b) > best` comparisons are modelled by comparing
  squared distances: both norms are nonnegative, so `‖a‖ > ‖b‖ ↔ ‖a‖² > ‖b‖²`,
  and the initial `-inf` best is modelled by an `Option` accumulator
  (the first candidate always beats `-inf`).
* Errors: Python `ValueError`/`ImportError` become the two constructors of
  `Err`; the loop itself is pure.
-/

/-- A 3D vertex (`mesh.vertices` row). -/
structure Vec3 where
  x : ℚ
  y : ℚ
  z : ℚ
deriving DecidableEq

/-- An indexed triangle mesh: vertex list plus faces as index triples. -/
structure Mesh where
  verts : List Vec3
  faces : List (Nat × Nat × Nat)
deriving DecidableEq

/-- One RGBA pixel of a rendered view. -/
structure Pixel where
  r : ℚ
  g : ℚ
  b : ℚ
  a : ℚ
deriving DecidableEq

/-- A rendered image, flattened to its pixel list. -/
abbrev Image := List Pixel

/-- The dictionary returned by `render_views`: one image per fixed view. -/
structure RViews where
  front : Image
  left : Image
  right : Image
deriving DecidableEq

/-- Python exception kinds reachable from `reduce_geometry`. -/
inductive Err where
  | importError (msg : String)
  | valueError (msg : String)
deriving DecidableEq

/-- `np.ndarray.min` over the Z column: `none` models numpy's
`ValueError` on a zero-size reduction. -/
def minZ : List Vec3 → Option ℚ
  | [] => none
  | v :: vs => some (vs.foldl (fun acc w => min acc w.z) v.z)

/-- The minimum-Z value of a component's vertices (total version; only
used on components whose vertex list is known to be nonempty). -/
def minZd (m : Mesh) : ℚ := (minZ m.verts).getD 0

/-- `_binary_mask` (reduce_geometry.py:32): grayscale is the mean of the
first three (RGB) channels, a pixel is covered when it is below 250. -/
def binary_mask (img : Image) : List Bool :=
  img.map fun p => decide ((p.r + p.g + p.b) / 3 < 250)

/-- `np.count_nonzero(base_mask != candidate_mask)`. -/
def countMaskDiff (a b : List Bool) : Nat :=
  ((a.zip b).filter fun p => p.1 != p.2).length

/-- The per-view pixel-difference ratio computed in
`_views_within_threshold` (reduce_geometry.py:45). -/
def difference_ratio (base cand : Image) : ℚ :=
  (countMaskDiff (binary_mask base) (binary_mask cand) : ℚ) /
    ((binary_mask base).length : ℚ)

/-- `_views_within_threshold` (reduce_geometry.py:37): every one of the
three views must stay within the threshold. -/
def views_within_threshold (baseline candidate : RViews) (θ : ℚ) : Bool :=
  decide (difference_ratio baseline.front candidate.front ≤ θ) &&
  decide (difference_ratio baseline.left candidate.left ≤ θ) &&
  decide (difference_ratio baseline.right candidate.right ≤ θ)

/-- Axis-aligned bounding-box centroid (`component.bounding_box.centroid`):
the midpoint of per-axis minima and maxima. -/
def component_centroid (m : Mesh) : Vec3 :=
  match m.verts with
  | [] => ⟨0, 0, 0⟩
  | v :: vs =>
      let lo := vs.foldl (fun acc w => ⟨min acc.x w.x, min acc.y w.y, min acc.z w.z⟩) v
      let hi := vs.foldl (fun acc w => ⟨max acc.x w.x, max acc.y w.y, max acc.z w.z⟩) v
      ⟨(lo.x + hi.x) / 2, (lo.y + hi.y) / 2, (lo.z + hi.z) / 2⟩

/-- `_components_center` (reduce_geometry.py:55): the mean of the
bounding-box centroids. -/
def components_center (cs : List Mesh) : Vec3 :=
  let centroids := cs.map component_centroid
  let n : ℚ := (centroids.length : ℚ)
  ⟨(centroids.map Vec3.x).sum / n, (centroids.map Vec3.y).sum / n,
    (centroids.map Vec3.z).sum / n⟩

/-- Squared Euclidean distance between two points.  The code compares
`np.linalg.norm` values, which for nonnegative reals is order-isomorphic
to comparing the squares. -/
def sqDist (a b : Vec3) : ℚ :=
  (a.x - b.x) ^ 2 + (a.y - b.y) ^ 2 + (a.z - b.z) ^ 2

/-- `trimesh.util.concatenate` for two meshes: stack vertices, offset the
second mesh's face indices. -/
def concatMesh (a b : Mesh) : Mesh :=
  ⟨a.verts ++ b.verts,
    a.faces ++ b.faces.map fun f =>
      (f.1 + a.verts.length, f.2.1 + a.verts.length, f.2.2 + a.verts.length)⟩

/-- Total merge of a component list (the value `_merge_meshes` produces on
a nonempty list; `[m]` is `m.copy()`, a value-identical mesh). -/
def mergeList : List Mesh → Mesh
  | [] => ⟨[], []⟩
  | m :: ms => ms.foldl concatMesh m

/-- `_merge_meshes` (reduce_geometry.py:23): raises on an empty list. -/
def merge_meshes : List Mesh → Except Err Mesh
  | [] => Except.error (Err.valueError "No mesh components remain after reduction.")
  | m :: ms => Except.ok (mergeList (m :: ms))

/-- The instructive message `_split_mesh` raises when trimesh lacks a
graph engine (reduce_geometry.py:64). -/
def graphEngineMsg : String :=
  "trimesh requires a graph engine such as `networkx` or `scipy` to split meshes. Install one (for example, via `pip install trimesh[all]` or `pip install networkx scipy`) and retry."

/-- `_split_mesh` (reduce_geometry.py:60): delegate to trimesh's split
(the abstract `splitRaw`), converting its `ImportError` into the named
graph-engine `ImportError`; other outcomes pass through. -/
def split_mesh (splitRaw : Mesh → Except Err (List Mesh)) (mesh : Mesh) :
    Except Err (List Mesh) :=
  match splitRaw mesh with
  | Except.error (Err.importError _) => Except.error (Err.importError graphEngineMsg)
  | other => other

/-- The message numpy raises when `.min()` hits a zero-size array. -/
def zeroSizeMsg : String :=
  "zero-size array to reduction operation minimum which has no identity"

/-- The clearance loop (reduce_geometry.py:103-108): keep a component when
its own minimum Z is at most `limit = ground_level + clearance`, otherwise
count it as removed.  Reading `component.vertices[:, 2].min()` of an
empty component raises numpy's zero-size error. -/
def clearanceFilter (limit : ℚ) : List Mesh → Except Err (List Mesh × Nat)
  | [] => Except.ok ([], 0)
  | c :: rest =>
      match minZ c.verts with
      | none => Except.error (Err.valueError zeroSizeMsg)
      | some mz =>
          match clearanceFilter limit rest with
          | Except.error e => Except.error e
          | Except.ok (ks, r) =>
              if mz ≤ limit then Except.ok (c :: ks, r) else Except.ok (ks, r + 1)

/-- `[comp for keep, comp in zip(flags, comps) if keep]`. -/
def filterFlags (flags : List Bool) (comps : List Mesh) : List Mesh :=
  ((flags.zip comps).filter fun p => p.1).map fun p => p.2

/-- State of the reduction loop: kept flags, considered flags, and the
currently accepted baseline views. -/
structure RState where
  kept : List Bool
  considered : List Bool
  views : RViews
deriving DecidableEq

/-- The `while` condition (reduce_geometry.py:119): some component is
still kept and unconsidered. -/
def whileCond (s : RState) : Bool :=
  !((s.considered.zip s.kept).all fun p => p.1 || !p.2)

/-- Inner scan of reduce_geometry.py:123-133 over
`zip(kept_flags, considered_flags, kept_components)`: track the running
farthest `(index, squared distance)`; a strictly greater distance replaces
the best, the `none` accumulator plays the role of `-inf`. -/
def selectAux (center : Vec3) : Nat → List (Bool × Bool × Mesh) →
    Option (Nat × ℚ) → Option (Nat × ℚ)
  | _, [], best => best
  | idx, t :: rest, best =>
      if t.1 && !t.2.1 then
        match best with
        | none =>
            selectAux center (idx + 1) rest
              (some (idx, sqDist (component_centroid t.2.2) center))
        | some b =>
            if b.2 < sqDist (component_centroid t.2.2) center then
              selectAux center (idx + 1) rest
                (some (idx, sqDist (component_centroid t.2.2) center))
            else selectAux center (idx + 1) rest (some b)
      else selectAux center (idx + 1) rest best

/-- The index of the component chosen for testing (`farthest_idx`). -/
def selectFarthest (comps : List Mesh) (kept considered : List Bool)
    (center : Vec3) : Option Nat :=
  (selectAux center 0 (kept.zip (considered.zip comps)) none).map Prod.fst

/-- One loop body after an index was selected (reduce_geometry.py:138-151):
drop the component from the candidate flags; an empty candidate set is
only marked considered; otherwise render the candidate merge and accept it
exactly when `_views_within_threshold` holds; the tested index is marked
considered in every branch. -/
def iterStep (render : Mesh → RViews) (θ : ℚ) (comps : List Mesh)
    (s : RState) (i : Nat) : RState :=
  let candidateFlags := s.kept.set i false
  let candidateMeshes := filterFlags candidateFlags comps
  if candidateMeshes.isEmpty then
    ⟨s.kept, s.considered.set i true, s.views⟩
  else
    let candidateViews := render (mergeList candidateMeshes)
    if views_within_threshold s.views candidateViews θ then
      ⟨candidateFlags, s.considered.set i true, candidateViews⟩
    else
      ⟨s.kept, s.considered.set i true, s.views⟩

/-- The reduction `while` loop (reduce_geometry.py:119-151), fueled: every
executed iteration turns one considered flag from false to true, so fuel
`comps.length` reaches the loop's own exit condition.  The `none` branch
mirrors the defensive `if farthest_idx is None: break`. -/
def loopN (render : Mesh → RViews) (θ : ℚ) (comps : List Mesh) :
    Nat → RState → RState
  | 0, s => s
  | fuel + 1, s =>
      if whileCond s then
        match selectFarthest comps s.kept s.considered
            (components_center (filterFlags s.kept comps)) with
        | none => s
        | some i => loopN render θ comps fuel (iterStep render θ comps s i)
      else s

/-- The kept components surviving the whole reduction loop, started from
the all-kept/none-considered state with the given baseline views
(reduce_geometry.py:113-153). -/
def finalKept (render : Mesh → RViews) (θ : ℚ) (keptComponents : List Mesh)
    (baseline : RViews) : List Mesh :=
  filterFlags
    (loopN render θ keptComponents keptComponents.length
      ⟨List.replicate keptComponents.length true,
        List.replicate keptComponents.length false, baseline⟩).kept
    keptComponents

/-- reduce_geometry.py:110-158: everything after the clearance filter.
The baseline views are rendered from the merge of the kept components,
the loop runs to completion, and the surviving components are merged. -/
def reduceWithKept (render : Mesh → RViews) (θ : ℚ)
    (keptComponents : List Mesh) (removedByClearance : Nat) :
    Except Err (Mesh × Nat × Nat) :=
  if keptComponents.isEmpty then
    Except.error (Err.valueError "All components were removed by clearance filtering.")
  else
    match merge_meshes keptComponents with
    | Except.error e => Except.error e
    | Except.ok currentMesh =>
        match merge_meshes (finalKept render θ keptComponents (render currentMesh)) with
        | Except.error e => Except.error e
        | Except.ok reducedMesh =>
            Except.ok (reducedMesh,
              (finalKept render θ keptComponents (render currentMesh)).length,
              removedByClearance +
                (keptComponents.length -
                  (finalKept render θ keptComponents (render currentMesh)).length))

/-- `reduce_geometry` (reduce_geometry.py:71): ground level from the input
mesh, split, clearance filter, then the view-equivalence search. -/
def reduce_geometry (splitRaw : Mesh → Except Err (List Mesh))
    (render : Mesh → RViews) (mesh : Mesh) (clearance θ : ℚ) :
    Except Err (Mesh × Nat × Nat) :=
  match minZ mesh.verts with
  | none => Except.error (Err.valueError zeroSizeMsg)
  | some groundLevel =>
      match split_mesh splitRaw mesh with
      | Except.error e => Except.error e
      | Except.ok components =>
          match clearanceFilter (groundLevel + clearance) components with
          | Except.error e => Except.error e
          | Except.ok (keptComponents, removedByClearance) =>
              reduceWithKept render θ keptComponents removedByClearance

deriving instance DecidableEq for Except

/-- The default triple used for out-of-range `getD` reads of the zipped
selection list; it is inactive (not kept, already considered). -/
def dtTriple : Bool × Bool × Mesh := (false, true, ⟨[], []⟩)

/-- Whether a zipped `(keep, considered, component)` triple is eligible for
selection (kept and not yet considered). -/
def tripleActive (t : Bool × Bool × Mesh) : Bool := t.1 && !t.2.1

/-- The squared centroid distance of a zipped triple's component. -/
def tripleDist (center : Vec3) (t : Bool × Bool × Mesh) : ℚ :=
  sqDist (component_centroid t.2.2) center

/-- Spec wording (refinement side for C1): a pixel is covered exactly when
the mean of its RGB channels is below 250. -/
def pixelCovered (p : Pixel) : Prop := (p.r + p.g + p.b) / 3 < 250

instance (p : Pixel) : Decidable (pixelCovered p) :=
  inferInstanceAs (Decidable ((p.r + p.g + p.b) / 3 < 250))

/-- Spec wording (refinement side for C1): the number of pixel positions
whose covered/uncovered classification differs between two images. -/
def countCoverageDiffs (b c : Image) : Nat :=
  ((b.zip c).filter fun pq =>
    decide (pixelCovered pq.1) != decide (pixelCovered pq.2)).length

/-! ### The raster window of `_render_projection` (view_rendering.py) -/

/-- The two in-plane columns `(right, true_up)` of the projection basis
(`basis[:, :2]` in `_project_vertices`). -/
structure Basis2 where
  r : Vec3
  u : Vec3

/-- Dot product of 3D vectors. -/
def dot3 (a b : Vec3) : ℚ := a.x * b.x + a.y * b.y + a.z * b.z

/-- `_project_vertices` (view_rendering.py:67):
`mesh.vertices @ basis[:, :2]`. -/
def project_vertices (basis : Basis2) (m : Mesh) : List (ℚ × ℚ) :=
  m.verts.map fun v => (dot3 v basis.r, dot3 v basis.u)

/-- Minimum of a rational list with head-seeded fold
(`projected.min(axis=0)` per axis; only used on nonempty lists). -/
def minList : List ℚ → ℚ
  | [] => 0
  | x :: xs => xs.foldl min x

/-- Maximum of a rational list with head-seeded fold. -/
def maxList : List ℚ → ℚ
  | [] => 0
  | x :: xs => xs.foldl max x

/-- view_rendering.py:110: `margin = span * 0.05 or 1.0` — Python's `or`
substitutes the fixed absolute margin 1.0 exactly when the 5% margin is
zero (i.e. when the projected span on that axis is zero). -/
def marginOf (span : ℚ) : ℚ :=
  if span * (5 / 100) = 0 then 1 else span * (5 / 100)

/-- The x-axis data window `(ax.set_xlim)` of the raster: projected
bounding box expanded by the margin (view_rendering.py:106-113). -/
def windowX (pts : List (ℚ × ℚ)) : ℚ × ℚ :=
  (minList (pts.map Prod.fst) -
      marginOf (maxList (pts.map Prod.fst) - minList (pts.map Prod.fst)),
    maxList (pts.map Prod.fst) +
      marginOf (maxList (pts.map Prod.fst) - minList (pts.map Prod.fst)))

/-- The y-axis data window `(ax.set_ylim)` of the raster. -/
def windowY (pts : List (ℚ × ℚ)) : ℚ × ℚ :=
  (minList (pts.map Prod.snd) -
      marginOf (maxList (pts.map Prod.snd) - minList (pts.map Prod.snd)),
    maxList (pts.map Prod.snd) +
      marginOf (maxList (pts.map Prod.snd) - minList (pts.map Prod.snd)))

/-- `projected[mesh.faces]` (view_rendering.py:89): the 2D triangles
handed to the PolyCollection. -/
def faces2d (basis : Basis2) (m : Mesh) : List ((ℚ × ℚ) × (ℚ × ℚ) × (ℚ × ℚ)) :=
  m.faces.map fun f =>
    ((project_vertices basis m).getD f.1 (0, 0),
      (project_vertices basis m).getD f.2.1 (0, 0),
      (project_vertices basis m).getD f.2.2 (0, 0))

/-- The triangles re-expressed relative to the window's lower corner.
Matplotlib's data-to-pixel transform is the affine map determined by the
axes limits and the (fixed, square) figure, so the rasterized pixels are a
function of exactly these window-relative coordinates together with the
window extents. -/
def relFaces (basis : Basis2) (m : Mesh) : List ((ℚ × ℚ) × (ℚ × ℚ) × (ℚ × ℚ)) :=
  (faces2d basis m).map fun tri =>
    ((tri.1.1 - (windowX (project_vertices basis m)).1,
        tri.1.2 - (windowY (project_vertices basis m)).1),
      (tri.2.1.1 - (windowX (project_vertices basis m)).1,
        tri.2.1.2 - (windowY (project_vertices basis m)).1),
      (tri.2.2.1 - (windowX (project_vertices basis m)).1,
        tri.2.2.2 - (windowY (project_vertices basis m)).1))

/-- The occupancy mask of `_render_projection` with the rasterizer `R`
abstracted: a deterministic function of the window-relative triangles and
of the window's width and height. -/
def occupancy_mask
    (R : List ((ℚ × ℚ) × (ℚ × ℚ) × (ℚ × ℚ)) → ℚ → ℚ → List Bool)
    (basis : Basis2) (m : Mesh) : List Bool :=
  R (relFaces basis m)
    ((windowX (project_vertices basis m)).2 - (windowX (project_vertices basis m)).1)
    ((windowY (project_vertices basis m)).2 - (windowY (project_vertices basis m)).1)

/-- Translation of a mesh by an offset (vertex-wise addition). -/
def translateMesh (t : Vec3) (m : Mesh) : Mesh :=
  ⟨m.verts.map fun v => ⟨v.x + t.x, v.y + t.y, v.z + t.z⟩, m.faces⟩

/-! ### Concrete instances for witnesses and counterexamples

Small triangle components with exact rational coordinates; the render
oracles are deterministic functions standing in for the matplotlib-backed
rasterizer. -/

/-- A single all-white pixel: uncovered under the 250 threshold. -/
def whitePixel : Pixel := ⟨255, 255, 255, 255⟩

/-- A single all-black pixel: covered under the 250 threshold. -/
def blackPixel : Pixel := ⟨0, 0, 0, 255⟩

/-- One-pixel all-white views. -/
def whiteViews : RViews := ⟨[whitePixel], [whitePixel], [whitePixel]⟩

/-- One-pixel all-black views. -/
def blackViews : RViews := ⟨[blackPixel], [blackPixel], [blackPixel]⟩

/-- C6 data: a triangle at x = -1. -/
def c6A : Mesh := ⟨[⟨-1, 0, 0⟩, ⟨-1, 1, 0⟩, ⟨-1, 0, 1⟩], [(0, 1, 2)]⟩

/-- C6 data: the mirror triangle at x = 1. -/
def c6B : Mesh := ⟨[⟨1, 0, 0⟩, ⟨1, 1, 0⟩, ⟨1, 0, 1⟩], [(0, 1, 2)]⟩

/-- C6 data: the combined two-component mesh. -/
def c6Mesh : Mesh := ⟨c6A.verts ++ c6B.verts, []⟩

/-- C6 data: a constant render oracle (every mesh rasterizes to the same
white pixel), under which every candidate comparison is within any
nonnegative threshold. -/
def c6Render : Mesh → RViews := fun _ => whiteViews

/-- C6 data: split returning the components in order [A, B]. -/
def c6SplitAB : Mesh → Except Err (List Mesh) := fun _ => Except.ok [c6A, c6B]

/-- C6 data: split returning the same components permuted, [B, A]. -/
def c6SplitBA : Mesh → Except Err (List Mesh) := fun _ => Except.ok [c6B, c6A]

/-- C6 amended-claim data: triangle at x = -3 (unique farthest). -/
def c6P : Mesh := ⟨[⟨-3, 0, 0⟩, ⟨-3, 1, 0⟩, ⟨-3, 0, 1⟩], [(0, 1, 2)]⟩

/-- C6 amended-claim data: triangle at x = 0. -/
def c6Q : Mesh := ⟨[⟨0, 0, 0⟩, ⟨0, 1, 0⟩, ⟨0, 0, 1⟩], [(0, 1, 2)]⟩

/-- C6 amended-claim data: triangle at x = 1. -/
def c6R : Mesh := ⟨[⟨1, 0, 0⟩, ⟨1, 1, 0⟩, ⟨1, 0, 1⟩], [(0, 1, 2)]⟩

/-- C7 data: triangle at x = -3. -/
def c7A : Mesh := ⟨[⟨-3, 0, 0⟩, ⟨-3, 1, 0⟩, ⟨-3, 0, 1⟩], [(0, 1, 2)]⟩

/-- C7 data: triangle at x = 0. -/
def c7B : Mesh := ⟨[⟨0, 0, 0⟩, ⟨0, 1, 0⟩, ⟨0, 0, 1⟩], [(0, 1, 2)]⟩

/-- C7 data: triangle at x = 1. -/
def c7C : Mesh := ⟨[⟨1, 0, 0⟩, ⟨1, 1, 0⟩, ⟨1, 0, 1⟩], [(0, 1, 2)]⟩

/-- C7 data: the full three-component input mesh, as merged by the code. -/
def c7Mesh : Mesh := mergeList [c7A, c7B, c7C]

/-- C7 data: the merge of A and B, the first run's reduced mesh. -/
def c7AB : Mesh := concatMesh c7A c7B

/-- C7 data: the merge of B and C, the candidate when A's removal is
tested during the first run. -/
def c7BC : Mesh := concatMesh c7B c7C

/-- C7 data: a deterministic render oracle.  The candidate renders that
differ from their baselines (removing A from {A,B,C}, i.e. rendering
{B,C}; and rendering {A} alone) come out black, everything else white.
This mirrors a rasterizer for which dropping A is unacceptable while the
third component C is still present, but acceptable once C is gone. -/
def c7Render : Mesh → RViews := fun m =>
  if m = c7BC ∨ m = c7A then blackViews else whiteViews

/-- C7 data: a connectivity split returning the disjoint components of
each of the two meshes the runs split. -/
def c7Split : Mesh → Except Err (List Mesh) := fun m =>
  if m = c7Mesh then Except.ok [c7A, c7B, c7C]
  else if m = c7AB then Except.ok [c7A, c7B]
  else Except.ok [m]

/-! ### Helper lemmas about the embedded definitions -/

lemma minZ_eq_min? (vs : List Vec3) : minZ vs = (vs.map Vec3.z).min? := by
  cases vs with
  | nil => rfl
  | cons v vs => simp only [minZ, List.map_cons, List.min?_cons', List.foldl_map]

lemma minZ_spec {vs : List Vec3} {g : ℚ} (h : minZ vs = some g) :
    g ∈ vs.map Vec3.z ∧ ∀ q ∈ vs.map Vec3.z, g ≤ q := by
  rw [minZ_eq_min?] at h
  haveI : Std.Antisymm ((· : ℚ) ≤ ·) := ⟨fun h1 h2 => le_antisymm h1 h2⟩
  have h' := (List.min?_eq_some_iff (fun a => le_refl a)
    (fun a b => min_choice a b) (fun a b c => le_min_iff)).mp h
  exact ⟨h'.1, h'.2⟩

lemma minZ_of_ne_nil {m : Mesh} (h : m.verts ≠ []) :
    minZ m.verts = some (minZd m) := by
  cases hv : m.verts with
  | nil => exact absurd hv h
  | cons v vs => simp [minZd, hv, minZ]

lemma clearanceFilter_eq (limit : ℚ) (comps : List Mesh)
    (hv : ∀ c ∈ comps, c.verts ≠ []) :
    clearanceFilter limit comps =
      Except.ok (comps.filter fun c => decide (minZd c ≤ limit),
        (comps.filter fun c => decide (limit < minZd c)).length) := by
  induction comps with
  | nil => rfl
  | cons c rest ih =>
      have hmz : minZ c.verts = some (minZd c) := minZ_of_ne_nil (hv c (by simp))
      have ih' := ih fun x hx => hv x (by simp [hx])
      by_cases hle : minZd c ≤ limit
      · simp [clearanceFilter, hmz, ih', hle, not_lt.mpr hle, List.filter_cons]
      · simp [clearanceFilter, hmz, ih', hle, not_le.mp hle, List.filter_cons]

/-! ### C2 -/

/-- C2: in `reduce_geometry`, `ground_level` is the minimum Z coordinate
over all vertices of the input mesh (computed before splitting), every
component's own minimum Z is the minimum over that component's vertices,
and the clearance filter removes exactly the components whose minimum Z is
strictly greater than `ground_level + clearance` (counting them in
`removed_by_clearance`), keeping the others as the candidate pool. -/
theorem C2_ground_level_and_clearance (splitRaw : Mesh → Except Err (List Mesh))
    (render : Mesh → RViews) (mesh : Mesh) (clearance θ g : ℚ)
    (comps : List Mesh)
    (hg : minZ mesh.verts = some g)
    (hsplit : splitRaw mesh = Except.ok comps)
    (hv : ∀ c ∈ comps, c.verts ≠ []) :
    (g ∈ mesh.verts.map Vec3.z ∧ ∀ q ∈ mesh.verts.map Vec3.z, g ≤ q) ∧
    (∀ c ∈ comps, minZd c ∈ c.verts.map Vec3.z ∧ ∀ q ∈ c.verts.map Vec3.z, minZd c ≤ q) ∧
    reduce_geometry splitRaw render mesh clearance θ =
      reduceWithKept render θ
        (comps.filter fun c => decide (minZd c ≤ g + clearance))
        (comps.filter fun c => decide (g + clearance < minZd c)).length := by
  refine ⟨minZ_spec hg, ?_, ?_⟩
  · intro c hc
    exact minZ_spec (minZ_of_ne_nil (hv c hc))
  · simp only [reduce_geometry, hg, split_mesh, hsplit,
      clearanceFilter_eq (g + clearance) comps hv]

/-- Witness for C2 at a concrete two-component split. -/
theorem C2_ground_level_and_clearance_witness :
    let m1 : Mesh := ⟨[⟨0, 0, 0⟩, ⟨1, 0, 0⟩, ⟨0, 1, 5⟩], [(0, 1, 2)]⟩
    let m2 : Mesh := ⟨[⟨0, 0, 7⟩, ⟨1, 0, 7⟩, ⟨0, 1, 9⟩], [(0, 1, 2)]⟩
    let mesh : Mesh := ⟨m1.verts ++ m2.verts, []⟩
    let splitRaw : Mesh → Except Err (List Mesh) := fun _ => Except.ok [m1, m2]
    let render : Mesh → RViews := fun _ => ⟨[], [], []⟩
    (0 ∈ mesh.verts.map Vec3.z ∧ ∀ q ∈ mesh.verts.map Vec3.z, (0 : ℚ) ≤ q) ∧
    (∀ c ∈ [m1, m2], minZd c ∈ c.verts.map Vec3.z ∧
      ∀ q ∈ c.verts.map Vec3.z, minZd c ≤ q) ∧
    reduce_geometry splitRaw render mesh (1/100) (1/1000) =
      reduceWithKept render (1/1000)
        ([m1, m2].filter fun c => decide (minZd c ≤ 0 + 1/100))
        ([m1, m2].filter fun c => decide (0 + 1/100 < minZd c)).length := by
  exact C2_ground_level_and_clearance _ _ _ (1/100) (1/1000) 0 _ (by decide)
    rfl (by decide)

/-! ### C9 -/

/-- C9: if the split fails because the optional graph-engine capability is
absent (`splitRaw` raises `ImportError`), `reduce_geometry` aborts with an
`ImportError` — a distinct error kind from every `ValueError` — whose
message names the capabilities to install (`networkx` / `scipy`). -/
theorem C9_graph_engine_import_error (splitRaw : Mesh → Except Err (List Mesh))
    (render : Mesh → RViews) (mesh : Mesh) (clearance θ g : ℚ) (m0 : String)
    (hg : minZ mesh.verts = some g)
    (hraise : splitRaw mesh = Except.error (Err.importError m0)) :
    reduce_geometry splitRaw render mesh clearance θ =
      Except.error (Err.importError graphEngineMsg) ∧
    (∀ s, Err.importError graphEngineMsg ≠ Err.valueError s) := by
  constructor
  · simp only [reduce_geometry, hg, split_mesh, hraise]
  · intro s h
    cases h

/-- Witness for C9 at a concrete mesh whose split raises `ImportError`. -/
theorem C9_graph_engine_import_error_witness :
    let mesh : Mesh := ⟨[⟨0, 0, 0⟩, ⟨1, 0, 0⟩, ⟨0, 1, 0⟩], [(0, 1, 2)]⟩
    let splitRaw : Mesh → Except Err (List Mesh) := fun _ =>
      Except.error (Err.importError "no graph engine")
    let render : Mesh → RViews := fun _ => ⟨[], [], []⟩
    reduce_geometry splitRaw render mesh (1/100) (1/1000) =
      Except.error (Err.importError graphEngineMsg) ∧
    (∀ s, Err.importError graphEngineMsg ≠ Err.valueError s) := by
  exact C9_graph_engine_import_error _ _ _ (1/100) (1/1000) 0 "no graph engine"
    (by decide) rfl

/-! ### C5 -/

lemma reduceWithKept_ok_len (render : Mesh → RViews) (θ : ℚ)
    (ks : List Mesh) (rbc : Nat) (m : Mesh) (k r : Nat)
    (h : reduceWithKept render θ ks rbc = Except.ok (m, k, r)) : 1 ≤ k := by
  unfold reduceWithKept at h
  split at h
  · cases h
  · cases hm : merge_meshes ks with
    | error e =>
        rw [hm] at h
        cases h
    | ok cur =>
        rw [hm] at h
        dsimp only at h
        cases hfl : finalKept render θ ks (render cur) with
        | nil =>
            rw [hfl] at h
            cases h
        | cons a as =>
            rw [hfl] at h
            cases h
            simp only [List.length_cons]
            omega

/-- C5: whenever `reduce_geometry` returns successfully, the kept count is
at least one — the search never reduces the mesh to nothing. -/
theorem C5_kept_count_positive (splitRaw : Mesh → Except Err (List Mesh))
    (render : Mesh → RViews) (mesh : Mesh) (clearance θ : ℚ)
    (m : Mesh) (k r : Nat)
    (h : reduce_geometry splitRaw render mesh clearance θ = Except.ok (m, k, r)) :
    1 ≤ k := by
  unfold reduce_geometry at h
  split at h
  · cases h
  · split at h
    · cases h
    · split at h
      · cases h
      · exact reduceWithKept_ok_len _ _ _ _ _ _ _ h

/-! ### C10 -/

/-- C10: assuming the split's components cover the vertex attaining the
global minimum Z (true of a connectivity split in which every vertex is
referenced), and clearance is nonnegative, the "All components were
removed by clearance filtering." branch is unreachable for a nonempty
component list: the error fires exactly when the split produced zero
components. -/
theorem C10_clearance_error_iff_no_components
    (splitRaw : Mesh → Except Err (List Mesh)) (render : Mesh → RViews)
    (mesh : Mesh) (clearance θ g : ℚ) (comps : List Mesh)
    (hg : minZ mesh.verts = some g)
    (hsplit : splitRaw mesh = Except.ok comps)
    (hcl : 0 ≤ clearance)
    (hv : ∀ c ∈ comps, c.verts ≠ [])
    (hcover : comps ≠ [] → ∃ c ∈ comps, minZ c.verts = some g) :
    (reduce_geometry splitRaw render mesh clearance θ =
        Except.error
          (Err.valueError "All components were removed by clearance filtering."))
      ↔ comps = [] := by
  have hred : reduce_geometry splitRaw render mesh clearance θ =
      reduceWithKept render θ
        (comps.filter fun c => decide (minZd c ≤ g + clearance))
        (comps.filter fun c => decide (g + clearance < minZd c)).length := by
    simp only [reduce_geometry, hg, split_mesh, hsplit,
      clearanceFilter_eq (g + clearance) comps hv]
  rw [hred]
  constructor
  · intro herr
    by_contra hne
    obtain ⟨c, hc, hcz⟩ := hcover hne
    have hcmem : c ∈ comps.filter fun c => decide (minZd c ≤ g + clearance) := by
      refine List.mem_filter.mpr ⟨hc, ?_⟩
      have : minZd c = g := by
        simp [minZd, hcz]
      simp only [this, decide_eq_true_eq]
      linarith
    have hkne : (comps.filter fun c => decide (minZd c ≤ g + clearance)) ≠ [] := by
      intro hnil
      rw [hnil] at hcmem
      cases hcmem
    unfold reduceWithKept at herr
    rw [if_neg (by simpa using hkne)] at herr
    cases hk : comps.filter fun c => decide (minZd c ≤ g + clearance) with
    | nil => exact hkne hk
    | cons a as =>
        rw [hk] at herr
        dsimp only [merge_meshes] at herr
        split at herr
        · next e heq =>
            cases hfk : finalKept render θ (a :: as)
                (render (mergeList (a :: as))) with
            | nil =>
                rw [hfk] at heq
                cases heq
                exact absurd (Err.valueError.inj (Except.error.inj herr)) (by decide)
            | cons b bs =>
                rw [hfk] at heq
                cases heq
        · cases herr
  · intro hnil
    subst hnil
    rfl

/-- Witness for C10: a two-component split covering the ground vertex. -/
theorem C10_clearance_error_iff_no_components_witness :
    let m1 : Mesh := ⟨[⟨0, 0, 0⟩, ⟨1, 0, 0⟩, ⟨0, 1, 1⟩], [(0, 1, 2)]⟩
    let m2 : Mesh := ⟨[⟨3, 0, 2⟩, ⟨4, 0, 2⟩, ⟨3, 1, 3⟩], [(0, 1, 2)]⟩
    let mesh : Mesh := ⟨m1.verts ++ m2.verts, []⟩
    let splitRaw : Mesh → Except Err (List Mesh) := fun _ => Except.ok [m1, m2]
    let render : Mesh → RViews := fun _ => ⟨[], [], []⟩
    (reduce_geometry splitRaw render mesh (1/100) (1/1000) =
        Except.error
          (Err.valueError "All components were removed by clearance filtering."))
      ↔ ([m1, m2] : List Mesh) = [] := by
  exact C10_clearance_error_iff_no_components _ _ _ (1/100) (1/1000) 0 _
    (by decide) rfl (by norm_num) (by decide)
    (fun _ => ⟨_, List.mem_cons_self _ _, by decide⟩)

/-! ### C6 -/

/-- C6 counterexample: permuting the split's component list changes the
final reduced-mesh geometry.  The two components are mirror images, so
their centroid distances to the center of mass tie exactly and the strict
`>` comparison keeps the first-encountered component as `farthest_idx`;
that component is removed first and the survivor is whichever component
came second.  Both orders use the default clearance (0.01) and threshold
(0.001) and the same render oracle. -/
theorem C6_perm_counterexample :
    reduce_geometry c6SplitAB c6Render c6Mesh (1/100) (1/1000) =
      Except.ok (c6B, 1, 1) ∧
    reduce_geometry c6SplitBA c6Render c6Mesh (1/100) (1/1000) =
      Except.ok (c6A, 1, 1) ∧
    ([c6A, c6B] : List Mesh).Perm [c6B, c6A] ∧ c6A ≠ c6B := by
  refine ⟨?_, ?_, ?_, ?_⟩
  · with_unfolding_all decide
  · with_unfolding_all decide
  · exact List.Perm.swap c6B c6A []
  · with_unfolding_all decide


/-! ### Soundness of the farthest-component scan -/

lemma selectAux_some (center : Vec3) (l : List (Bool × Bool × Mesh)) :
    ∀ (idx : Nat) (best : Option (Nat × ℚ)) (j : Nat) (d : ℚ),
    (∀ j0 d0, best = some (j0, d0) → j0 < idx) →
    selectAux center idx l best = some (j, d) →
    ((best = some (j, d) ∧ j < idx) ∨
      (idx ≤ j ∧ j - idx < l.length ∧
        tripleActive (l.getD (j - idx) dtTriple) = true ∧
        d = tripleDist center (l.getD (j - idx) dtTriple))) ∧
    (∀ k, k < l.length → tripleActive (l.getD k dtTriple) = true →
        tripleDist center (l.getD k dtTriple) ≤ d) ∧
    (∀ k, k < l.length → idx + k < j → tripleActive (l.getD k dtTriple) = true →
        tripleDist center (l.getD k dtTriple) < d) ∧
    (∀ j0 d0, best = some (j0, d0) → (j0 = j ∧ d0 = d) ∨ d0 < d) := by
  induction l with
  | nil =>
      intro idx best j d hb hsel
      simp only [selectAux] at hsel
      subst hsel
      refine ⟨Or.inl ⟨rfl, hb j d rfl⟩, ?_, ?_, ?_⟩
      · intro k hk
        exact absurd hk (Nat.not_lt_zero k)
      · intro k hk
        exact absurd hk (Nat.not_lt_zero k)
      · intro j0 d0 h0
        injection h0 with h0
        injection h0 with h1 h2
        exact Or.inl ⟨h1.symm, h2.symm⟩
  | cons t rest ih =>
      intro idx best j d hb hsel
      simp only [selectAux] at hsel
      by_cases ha : (t.1 && !t.2.1) = true
      · rw [if_pos ha] at hsel
        cases best with
        | none =>
            dsimp only at hsel
            have hb' : ∀ j0 d0,
                (some (idx, sqDist (component_centroid t.2.2) center) :
                    Option (Nat × ℚ)) = some (j0, d0) → j0 < idx + 1 := by
              intro j0 d0 h0
              injection h0 with h0
              injection h0 with h1 _
              omega
            obtain ⟨hsrc, hle, hlt, hb4⟩ := ih (idx + 1)
              (some (idx, sqDist (component_centroid t.2.2) center)) j d hb' hsel
            have hdd : sqDist (component_centroid t.2.2) center ≤ d ∧
                (idx < j → sqDist (component_centroid t.2.2) center < d) := by
              rcases hb4 idx (sqDist (component_centroid t.2.2) center) rfl with h4 | h4
              · exact ⟨le_of_eq h4.2, fun hj => absurd h4.1 (by omega)⟩
              · exact ⟨le_of_lt h4, fun _ => h4⟩
            refine ⟨?_, ?_, ?_, ?_⟩
            · rcases hsrc with ⟨heq, -⟩ | ⟨h1, h2, h3, h4⟩
              · injection heq with heq
                injection heq with hj hd
                subst hj
                refine Or.inr ⟨le_refl idx, by simp, ?_, ?_⟩
                · rw [Nat.sub_self, List.getD_cons_zero]
                  exact ha
                · rw [Nat.sub_self, List.getD_cons_zero]
                  exact hd.symm
              · refine Or.inr ⟨by omega, by simp only [List.length_cons]; omega, ?_, ?_⟩
                · have hji : j - idx = (j - (idx + 1)) + 1 := by omega
                  rw [hji, List.getD_cons_succ]
                  exact h3
                · have hji : j - idx = (j - (idx + 1)) + 1 := by omega
                  rw [hji, List.getD_cons_succ]
                  exact h4
            · intro k hk hak
              cases k with
              | zero =>
                  rw [List.getD_cons_zero]
                  exact hdd.1
              | succ k =>
                  rw [List.getD_cons_succ] at hak ⊢
                  exact hle k (by simp only [List.length_cons] at hk; omega) hak
            · intro k hk hkj hak
              cases k with
              | zero =>
                  rw [List.getD_cons_zero]
                  exact hdd.2 (by omega)
              | succ k =>
                  rw [List.getD_cons_succ] at hak ⊢
                  exact hlt k (by simp only [List.length_cons] at hk; omega)
                    (by omega) hak
            · intro j0 d0 h0
              exact Option.noConfusion h0
        | some b =>
            obtain ⟨bj, bd⟩ := b
            dsimp only at hsel
            by_cases hlt0 : bd < sqDist (component_centroid t.2.2) center
            · rw [if_pos hlt0] at hsel
              have hb' : ∀ j0 d0,
                  (some (idx, sqDist (component_centroid t.2.2) center) :
                      Option (Nat × ℚ)) = some (j0, d0) → j0 < idx + 1 := by
                intro j0 d0 h0
                injection h0 with h0
                injection h0 with h1 _
                omega
              obtain ⟨hsrc, hle, hlt, hb4⟩ := ih (idx + 1)
                (some (idx, sqDist (component_centroid t.2.2) center)) j d hb' hsel
              have hdd : sqDist (component_centroid t.2.2) center ≤ d ∧
                  (idx < j → sqDist (component_centroid t.2.2) center < d) := by
                rcases hb4 idx (sqDist (component_centroid t.2.2) center) rfl with h4 | h4
                · exact ⟨le_of_eq h4.2, fun hj => absurd h4.1 (by omega)⟩
                · exact ⟨le_of_lt h4, fun _ => h4⟩
              refine ⟨?_, ?_, ?_, ?_⟩
              · rcases hsrc with ⟨heq, -⟩ | ⟨h1, h2, h3, h4⟩
                · injection heq with heq
                  injection heq with hj hd
                  subst hj
                  refine Or.inr ⟨le_refl idx, by simp, ?_, ?_⟩
                  · rw [Nat.sub_self, List.getD_cons_zero]
                    exact ha
                  · rw [Nat.sub_self, List.getD_cons_zero]
                    exact hd.symm
                · refine Or.inr ⟨by omega, by simp only [List.length_cons]; omega, ?_, ?_⟩
                  · have hji : j - idx = (j - (idx + 1)) + 1 := by omega
                    rw [hji, List.getD_cons_succ]
                    exact h3
                  · have hji : j - idx = (j - (idx + 1)) + 1 := by omega
                    rw [hji, List.getD_cons_succ]
                    exact h4
              · intro k hk hak
                cases k with
                | zero =>
                    rw [List.getD_cons_zero]
                    exact hdd.1
                | succ k =>
                    rw [List.getD_cons_succ] at hak ⊢
                    exact hle k (by simp only [List.length_cons] at hk; omega) hak
              · intro k hk hkj hak
                cases k with
                | zero =>
                    rw [List.getD_cons_zero]
                    exact hdd.2 (by omega)
                | succ k =>
                    rw [List.getD_cons_succ] at hak ⊢
                    exact hlt k (by simp only [List.length_cons] at hk; omega)
                      (by omega) hak
              · intro j0 d0 h0
                injection h0 with h0
                injection h0 with h1 h2
                exact Or.inr (h2 ▸ lt_of_lt_of_le hlt0 hdd.1)
            · rw [if_neg hlt0] at hsel
              have hb' : ∀ j0 d0,
                  (some (bj, bd) : Option (Nat × ℚ)) = some (j0, d0) →
                    j0 < idx + 1 := by
                intro j0 d0 h0
                have := hb j0 d0 h0
                omega
              obtain ⟨hsrc, hle, hlt, hb4⟩ := ih (idx + 1) (some (bj, bd)) j d hb' hsel
              have hbd_le : bd ≤ d := by
                rcases hb4 bj bd rfl with h4 | h4
                · exact le_of_eq h4.2
                · exact le_of_lt h4
              have hdist_le : sqDist (component_centroid t.2.2) center ≤ d :=
                le_trans (not_lt.mp hlt0) hbd_le
              refine ⟨?_, ?_, ?_, hb4⟩
              · rcases hsrc with ⟨heq, -⟩ | ⟨h1, h2, h3, h4⟩
                · injection heq with heq
                  injection heq with h1 h2
                  exact Or.inl ⟨by rw [h1, h2], hb j d (by rw [h1, h2])⟩
                · refine Or.inr ⟨by omega, by simp only [List.length_cons]; omega, ?_, ?_⟩
                  · have hji : j - idx = (j - (idx + 1)) + 1 := by omega
                    rw [hji, List.getD_cons_succ]
                    exact h3
                  · have hji : j - idx = (j - (idx + 1)) + 1 := by omega
                    rw [hji, List.getD_cons_succ]
                    exact h4
              · intro k hk hak
                cases k with
                | zero =>
                    rw [List.getD_cons_zero]
                    exact hdist_le
                | succ k =>
                    rw [List.getD_cons_succ] at hak ⊢
                    exact hle k (by simp only [List.length_cons] at hk; omega) hak
              · intro k hk hkj hak
                cases k with
                | zero =>
                    rw [List.getD_cons_zero]
                    rcases hb4 bj bd rfl with h4 | h4
                    · exfalso
                      have := hb bj bd rfl
                      omega
                    · exact lt_of_le_of_lt (not_lt.mp hlt0) h4
                | succ k =>
                    rw [List.getD_cons_succ] at hak ⊢
                    exact hlt k (by simp only [List.length_cons] at hk; omega)
                      (by omega) hak
      · rw [if_neg ha] at hsel
        have hb' : ∀ j0 d0, best = some (j0, d0) → j0 < idx + 1 := by
          intro j0 d0 h0
          have := hb j0 d0 h0
          omega
        obtain ⟨hsrc, hle, hlt, hb4⟩ := ih (idx + 1) best j d hb' hsel
        refine ⟨?_, ?_, ?_, hb4⟩
        · rcases hsrc with ⟨heq, -⟩ | ⟨h1, h2, h3, h4⟩
          · exact Or.inl ⟨heq, hb j d heq⟩
          · refine Or.inr ⟨by omega, by simp only [List.length_cons]; omega, ?_, ?_⟩
            · have hji : j - idx = (j - (idx + 1)) + 1 := by omega
              rw [hji, List.getD_cons_succ]
              exact h3
            · have hji : j - idx = (j - (idx + 1)) + 1 := by omega
              rw [hji, List.getD_cons_succ]
              exact h4
        · intro k hk hak
          cases k with
          | zero =>
              rw [List.getD_cons_zero] at hak
              exact absurd hak ha
          | succ k =>
              rw [List.getD_cons_succ] at hak ⊢
              exact hle k (by simp only [List.length_cons] at hk; omega) hak
        · intro k hk hkj hak
          cases k with
          | zero =>
              rw [List.getD_cons_zero] at hak
              exact absurd hak ha
          | succ k =>
              rw [List.getD_cons_succ] at hak ⊢
              exact hlt k (by simp only [List.length_cons] at hk; omega)
                (by omega) hak

lemma selectFarthest_spec (comps : List Mesh) (kept considered : List Bool)
    (center : Vec3) (i : Nat)
    (hsel : selectFarthest comps kept considered center = some i) :
    i < (kept.zip (considered.zip comps)).length ∧
    tripleActive ((kept.zip (considered.zip comps)).getD i dtTriple) = true ∧
    (∀ k, k < (kept.zip (considered.zip comps)).length →
      tripleActive ((kept.zip (considered.zip comps)).getD k dtTriple) = true →
      tripleDist center ((kept.zip (considered.zip comps)).getD k dtTriple) ≤
        tripleDist center ((kept.zip (considered.zip comps)).getD i dtTriple)) ∧
    (∀ k, k < i →
      tripleActive ((kept.zip (considered.zip comps)).getD k dtTriple) = true →
      tripleDist center ((kept.zip (considered.zip comps)).getD k dtTriple) <
        tripleDist center ((kept.zip (considered.zip comps)).getD i dtTriple)) := by
  unfold selectFarthest at hsel
  cases hres : selectAux center 0 (kept.zip (considered.zip comps)) none with
  | none =>
      rw [hres] at hsel
      cases hsel
  | some p =>
      obtain ⟨j, d⟩ := p
      rw [hres] at hsel
      simp only [Option.map_some'] at hsel
      injection hsel with hsel
      subst hsel
      obtain ⟨hsrc, hle, hlt, -⟩ := selectAux_some center _ 0 none j d
        (by intro j0 d0 h0; cases h0) hres
      rcases hsrc with ⟨h0, -⟩ | ⟨-, h2, h3, h4⟩
      · cases h0
      · rw [Nat.sub_zero] at h2 h3 h4
        refine ⟨h2, h3, ?_, ?_⟩
        · intro k hk hak
          rw [← h4]
          exact hle k hk hak
        · intro k hk hak
          rw [← h4]
          exact hlt k (by omega) (by omega) hak

lemma zip3_getD (kept considered : List Bool) (comps : List Mesh) (k : Nat)
    (hk : k < (kept.zip (considered.zip comps)).length) :
    (kept.zip (considered.zip comps)).getD k dtTriple =
      (kept.getD k false, considered.getD k true, comps.getD k ⟨[], []⟩) := by
  have h1 : k < kept.length ∧ k < considered.length ∧ k < comps.length := by
    simp only [List.length_zip] at hk
    omega
  rw [List.getD_eq_getElem _ _ hk,
    List.getD_eq_getElem _ _ h1.1, List.getD_eq_getElem _ _ h1.2.1,
    List.getD_eq_getElem _ _ h1.2.2, List.getElem_zip, List.getElem_zip]

lemma sqDist_nonneg (a b : Vec3) : 0 ≤ sqDist a b := by
  unfold sqDist
  positivity

/-! ### C3 -/

/-- C3: whenever the loop's selection, run against the mean of the
bounding-box centroids of the currently-kept components, returns
`farthest_idx = i`, the index `i` is kept and unconsidered, its
bounding-box centroid has maximal Euclidean distance from that center
among all kept-and-unconsidered components, and every earlier
kept-and-unconsidered index has strictly smaller distance: ties are broken
in favor of the earliest encountered component, because the scan only
replaces the running best on a strict `>` comparison. -/
theorem C3_farthest_first_selection (comps : List Mesh)
    (kept considered : List Bool) (i : Nat)
    (hlk : kept.length = comps.length) (hlc : considered.length = comps.length)
    (hsel : selectFarthest comps kept considered
        (components_center (filterFlags kept comps)) = some i) :
    i < comps.length ∧ kept.getD i false = true ∧ considered.getD i true = false ∧
    (∀ k, k < comps.length → kept.getD k false = true →
        considered.getD k true = false →
        Real.sqrt (sqDist (component_centroid (comps.getD k ⟨[], []⟩))
            (components_center (filterFlags kept comps)) : ℝ) ≤
          Real.sqrt (sqDist (component_centroid (comps.getD i ⟨[], []⟩))
            (components_center (filterFlags kept comps)) : ℝ)) ∧
    (∀ k, k < i → kept.getD k false = true → considered.getD k true = false →
        Real.sqrt (sqDist (component_centroid (comps.getD k ⟨[], []⟩))
            (components_center (filterFlags kept comps)) : ℝ) <
          Real.sqrt (sqDist (component_centroid (comps.getD i ⟨[], []⟩))
            (components_center (filterFlags kept comps)) : ℝ)) := by
  obtain ⟨hi, hai, hle, hlt⟩ := selectFarthest_spec comps kept considered _ i hsel
  have hlen : (kept.zip (considered.zip comps)).length = comps.length := by
    simp only [List.length_zip]
    omega
  rw [hlen] at hi
  have hact : ∀ k, k < comps.length →
      (tripleActive ((kept.zip (considered.zip comps)).getD k dtTriple) = true ↔
        (kept.getD k false = true ∧ considered.getD k true = false)) := by
    intro k hk
    rw [zip3_getD _ _ _ k (by rw [hlen]; exact hk)]
    simp [tripleActive, Bool.and_eq_true, Bool.not_eq_true']
  have hdist : ∀ k, k < comps.length →
      tripleDist (components_center (filterFlags kept comps))
          ((kept.zip (considered.zip comps)).getD k dtTriple) =
        sqDist (component_centroid (comps.getD k ⟨[], []⟩))
          (components_center (filterFlags kept comps)) := by
    intro k hk
    rw [zip3_getD _ _ _ k (by rw [hlen]; exact hk)]
    rfl
  have hactive_i := (hact i hi).mp (by rw [← hlen] at hi; exact hai)
  refine ⟨hi, hactive_i.1, hactive_i.2, ?_, ?_⟩
  · intro k hk h1 h2
    have h := hle k (by rw [hlen]; exact hk) ((hact k hk).mpr ⟨h1, h2⟩)
    rw [hdist k hk, hdist i hi] at h
    exact Real.sqrt_le_sqrt (by exact_mod_cast h)
  · intro k hk h1 h2
    have hkc : k < comps.length := by omega
    have h := hlt k hk ((hact k hkc).mpr ⟨h1, h2⟩)
    rw [hdist k hkc, hdist i hi] at h
    refine Real.sqrt_lt_sqrt ?_ (by exact_mod_cast h)
    exact_mod_cast sqDist_nonneg _ _

/-- Witness for C3, at the first loop iteration over two components
(whose mirror placement also exhibits the tie-break: index 0 wins). -/
theorem C3_farthest_first_selection_witness :
    let mA : Mesh := ⟨[⟨-3, 0, 0⟩, ⟨-3, 1, 0⟩, ⟨-3, 0, 1⟩], [(0, 1, 2)]⟩
    let mB : Mesh := ⟨[⟨0, 0, 0⟩, ⟨0, 1, 0⟩, ⟨0, 0, 1⟩], [(0, 1, 2)]⟩
    0 < ([mA, mB] : List Mesh).length ∧
    [true, true].getD 0 false = true ∧ [false, false].getD 0 true = false ∧
    (∀ k, k < ([mA, mB] : List Mesh).length → [true, true].getD k false = true →
        [false, false].getD k true = false →
        Real.sqrt (sqDist (component_centroid (([mA, mB] : List Mesh).getD k ⟨[], []⟩))
            (components_center (filterFlags [true, true] [mA, mB])) : ℝ) ≤
          Real.sqrt (sqDist (component_centroid (([mA, mB] : List Mesh).getD 0 ⟨[], []⟩))
            (components_center (filterFlags [true, true] [mA, mB])) : ℝ)) ∧
    (∀ k, k < 0 → [true, true].getD k false = true →
        [false, false].getD k true = false →
        Real.sqrt (sqDist (component_centroid (([mA, mB] : List Mesh).getD k ⟨[], []⟩))
            (components_center (filterFlags [true, true] [mA, mB])) : ℝ) <
          Real.sqrt (sqDist (component_centroid (([mA, mB] : List Mesh).getD 0 ⟨[], []⟩))
            (components_center (filterFlags [true, true] [mA, mB])) : ℝ)) := by
  exact C3_farthest_first_selection _ [true, true] [false, false] 0 rfl rfl
    (by with_unfolding_all decide)

lemma replicate_getD {α : Type} (n k : Nat) (a d : α) (hk : k < n) :
    (List.replicate n a).getD k d = a := by
  rw [List.getD_eq_getElem _ _ (by simpa using hk), List.getElem_replicate]

lemma components_center_perm {l1 l2 : List Mesh} (h : l1.Perm l2) :
    components_center l1 = components_center l2 := by
  have hmap := h.map component_centroid
  have hx := (hmap.map Vec3.x).sum_eq
  have hy := (hmap.map Vec3.y).sum_eq
  have hz := (hmap.map Vec3.z).sum_eq
  have hlen := hmap.length_eq
  simp only [components_center]
  rw [hx, hy, hz, hlen]

lemma selectFarthest_unique_max (l : List Mesh) (center : Vec3) (m : Mesh)
    (i : Nat) (hm : m ∈ l)
    (hmax : ∀ x ∈ l, x ≠ m →
      sqDist (component_centroid x) center < sqDist (component_centroid m) center)
    (hsel : selectFarthest l (List.replicate l.length true)
        (List.replicate l.length false) center = some i) :
    l.getD i ⟨[], []⟩ = m := by
  obtain ⟨hi, -, hle, -⟩ := selectFarthest_spec l _ _ center i hsel
  have hlen : ((List.replicate l.length true).zip
      ((List.replicate l.length false).zip l)).length = l.length := by
    simp [List.length_zip]
  rw [hlen] at hi
  have hact : ∀ k, k < l.length →
      tripleActive (((List.replicate l.length true).zip
        ((List.replicate l.length false).zip l)).getD k dtTriple) = true := by
    intro k hk
    rw [zip3_getD _ _ _ k (by rw [hlen]; exact hk),
      replicate_getD _ _ _ _ hk, replicate_getD _ _ _ _ hk]
    rfl
  have hdist : ∀ k, k < l.length →
      tripleDist center (((List.replicate l.length true).zip
          ((List.replicate l.length false).zip l)).getD k dtTriple) =
        sqDist (component_centroid (l.getD k ⟨[], []⟩)) center := by
    intro k hk
    rw [zip3_getD _ _ _ k (by rw [hlen]; exact hk)]
    rfl
  obtain ⟨km, hkm, hkm_eq⟩ := List.mem_iff_getElem.mp hm
  have hgm : l.getD km ⟨[], []⟩ = m := by
    rw [List.getD_eq_getElem _ _ hkm]
    exact hkm_eq
  by_contra hne
  have hmem_i : l.getD i ⟨[], []⟩ ∈ l := by
    rw [List.getD_eq_getElem _ _ hi]
    exact List.getElem_mem _
  have hlt2 := hmax _ hmem_i hne
  have hle2 := hle km (by rw [hlen]; exact hkm) (hact km hkm)
  rw [hdist km hkm, hdist i hi, hgm] at hle2
  exact absurd hle2 (not_le.mpr hlt2)

/-- C6 amended: permuting the split's component list (geometry unchanged)
preserves the clearance stage — the kept pools are permutations of each
other and `removed_by_clearance` counts agree — and preserves the center
of mass; and whenever the farthest centroid distance is *uniquely*
attained by a component `m`, both orders select that same component first.
(When distances tie, the strict `>` first-found-wins scan is list-order
dependent and the final reduced geometry can differ, as the
counterexample shows.) -/
theorem C6_amended_perm_invariance (l1 l2 : List Mesh) (hperm : l1.Perm l2)
    (limit : ℚ) (m : Mesh) (i1 i2 : Nat)
    (hm : m ∈ l1)
    (hmax : ∀ x ∈ l1, x ≠ m →
      sqDist (component_centroid x) (components_center l1) <
        sqDist (component_centroid m) (components_center l1))
    (h1 : selectFarthest l1 (List.replicate l1.length true)
        (List.replicate l1.length false) (components_center l1) = some i1)
    (h2 : selectFarthest l2 (List.replicate l2.length true)
        (List.replicate l2.length false) (components_center l2) = some i2) :
    (l1.filter fun c => decide (minZd c ≤ limit)).Perm
        (l2.filter fun c => decide (minZd c ≤ limit)) ∧
    (l1.filter fun c => decide (limit < minZd c)).length =
        (l2.filter fun c => decide (limit < minZd c)).length ∧
    components_center l1 = components_center l2 ∧
    l1.getD i1 ⟨[], []⟩ = m ∧ l2.getD i2 ⟨[], []⟩ = m := by
  have hcenter : components_center l1 = components_center l2 :=
    components_center_perm hperm
  refine ⟨hperm.filter _, (hperm.filter _).length_eq, hcenter, ?_, ?_⟩
  · exact selectFarthest_unique_max l1 _ m i1 hm hmax h1
  · refine selectFarthest_unique_max l2 _ m i2 (hperm.subset hm) ?_ h2
    intro x hx hxm
    rw [← hcenter]
    exact hmax x (hperm.symm.subset hx) hxm

/-- Witness for C6's amended claim: three components with a unique
farthest component, listed in two opposite orders. -/
theorem C6_amended_perm_invariance_witness :
    ([c6P, c6Q, c6R] : List Mesh).Perm [c6R, c6Q, c6P] ∧
    (([c6P, c6Q, c6R] : List Mesh).filter fun c => decide (minZd c ≤ 1/100)).Perm
        (([c6R, c6Q, c6P] : List Mesh).filter fun c => decide (minZd c ≤ 1/100)) ∧
    (([c6P, c6Q, c6R] : List Mesh).filter fun c => decide ((1:ℚ)/100 < minZd c)).length =
        (([c6R, c6Q, c6P] : List Mesh).filter fun c => decide ((1:ℚ)/100 < minZd c)).length ∧
    components_center [c6P, c6Q, c6R] = components_center [c6R, c6Q, c6P] ∧
    ([c6P, c6Q, c6R] : List Mesh).getD 0 ⟨[], []⟩ = c6P ∧
    ([c6R, c6Q, c6P] : List Mesh).getD 2 ⟨[], []⟩ = c6P := by
  have hperm : ([c6P, c6Q, c6R] : List Mesh).Perm [c6R, c6Q, c6P] := by
    with_unfolding_all decide
  refine ⟨hperm, ?_⟩
  exact C6_amended_perm_invariance [c6P, c6Q, c6R] [c6R, c6Q, c6P] hperm
    (1/100) c6P 0 2 (by with_unfolding_all decide)
    (by with_unfolding_all decide)
    (by with_unfolding_all decide) (by with_unfolding_all decide)

/-! ### C7 -/

/-- C7 counterexample: re-running the reduction on an already-reduced mesh
with identical parameters can remove further components.  During the first
run, removing `c7A` is tested (and rejected) while `c7C` is still in the
kept set; `c7C` is then removed.  The second run tests removing `c7A`
against the smaller final set, where the render comparison passes, so the
second run removes it: rejection at a larger kept set does not imply
rejection at a smaller one (the render depends on the candidate merge,
e.g. through the bounding-box-relative framing), so the greedy search is
not idempotent.  Both runs use the default clearance and threshold and the
same deterministic render oracle and connectivity split. -/
theorem C7_idempotence_counterexample :
    reduce_geometry c7Split c7Render c7Mesh (1/100) (1/1000) =
      Except.ok (c7AB, 2, 1) ∧
    reduce_geometry c7Split c7Render c7AB (1/100) (1/1000) =
      Except.ok (c7B, 1, 1) := by
  constructor
  · with_unfolding_all decide
  · with_unfolding_all decide

/-- C7 amended: re-running the reduction on a mesh assembled from
components that all survived a first run's clearance filter (so each
component's minimum Z is within `ground_level + clearance` of the first
run's ground level `g1`, and every vertex of the re-merged mesh sits at or
above `g1`) removes nothing in the clearance phase: all components
re-enter the candidate pool and `removed_by_clearance = 0`.  The view
search of the second run may still remove components (see the
counterexample), so `removed_count = 0` is not guaranteed. -/
theorem C7_amended_rerun_clearance (splitRaw : Mesh → Except Err (List Mesh))
    (render : Mesh → RViews) (mesh2 : Mesh) (comps : List Mesh)
    (g1 clearance θ g2 : ℚ)
    (hg2 : minZ mesh2.verts = some g2)
    (hsplit : splitRaw mesh2 = Except.ok comps)
    (hv : ∀ c ∈ comps, c.verts ≠ [])
    (hg1 : ∀ v ∈ mesh2.verts, g1 ≤ v.z)
    (hkept : ∀ c ∈ comps, minZd c ≤ g1 + clearance) :
    reduce_geometry splitRaw render mesh2 clearance θ =
      reduceWithKept render θ comps 0 := by
  have hg12 : g1 ≤ g2 := by
    obtain ⟨hmem, -⟩ := minZ_spec hg2
    obtain ⟨v, hvmem, hvz⟩ := List.mem_map.mp hmem
    rw [← hvz]
    exact hg1 v hvmem
  have hall : ∀ c ∈ comps, minZd c ≤ g2 + clearance := fun c hc =>
    le_trans (hkept c hc) (by linarith)
  have hfilter : (comps.filter fun c => decide (minZd c ≤ g2 + clearance)) = comps :=
    List.filter_eq_self.mpr fun c hc => decide_eq_true (hall c hc)
  have hnone : (comps.filter fun c => decide (g2 + clearance < minZd c)) = [] := by
    rw [List.filter_eq_nil_iff]
    intro c hc
    simp only [decide_eq_true_eq]
    exact not_lt.mpr (hall c hc)
  simp only [reduce_geometry, hg2, split_mesh, hsplit,
    clearanceFilter_eq _ _ hv, hfilter, hnone, List.length_nil]

/-- Witness for C7's amended claim: re-running on a single surviving
ground-level component re-enters it into the candidate pool with zero
clearance removals. -/
theorem C7_amended_rerun_clearance_witness :
    let spl : Mesh → Except Err (List Mesh) := fun _ => Except.ok [c7B]
    reduce_geometry spl c7Render c7B (1/100) (1/1000) =
      reduceWithKept c7Render (1/1000) [c7B] 0 := by
  exact C7_amended_rerun_clearance _ c7Render c7B [c7B] 0 (1/100) (1/1000) 0
    (by with_unfolding_all decide) rfl (by with_unfolding_all decide)
    (by with_unfolding_all decide) (by with_unfolding_all decide)

/-! ### C4 -/

/-- C4: a mesh that splits into exactly one connected component — which,
being the whole mesh, attains the mesh's global minimum Z — is returned
unchanged for any nonnegative clearance: the lone component passes the
clearance filter, its removal is skipped because the candidate set would
be empty, and the result is the component itself with `kept_count = 1`
and `removed_count = 0`. -/
theorem C4_single_component_unchanged (splitRaw : Mesh → Except Err (List Mesh))
    (render : Mesh → RViews) (mesh c : Mesh) (clearance θ g : ℚ)
    (hg : minZ mesh.verts = some g)
    (hsplit : splitRaw mesh = Except.ok [c])
    (hcz : minZ c.verts = some g)
    (hcl : 0 ≤ clearance) :
    reduce_geometry splitRaw render mesh clearance θ = Except.ok (c, 1, 0) := by
  have hle : g ≤ g + clearance := by linarith
  have hcf : clearanceFilter (g + clearance) [c] = Except.ok ([c], 0) := by
    simp only [clearanceFilter, hcz]
    rw [if_pos hle]
  simp only [reduce_geometry, hg, split_mesh, hsplit, hcf]
  rfl

/-- Witness for C4 at a concrete one-triangle mesh. -/
theorem C4_single_component_unchanged_witness :
    let t : Mesh := ⟨[⟨0, 0, 2⟩, ⟨1, 0, 2⟩, ⟨0, 1, 3⟩], [(0, 1, 2)]⟩
    let spl : Mesh → Except Err (List Mesh) := fun _ => Except.ok [t]
    let rnd : Mesh → RViews := fun _ => whiteViews
    reduce_geometry spl rnd t (1/100) (1/1000) = Except.ok (t, 1, 0) := by
  exact C4_single_component_unchanged _ _ _ _ (1/100) (1/1000) 2
    (by with_unfolding_all decide) rfl (by with_unfolding_all decide)
    (by norm_num)

/-- Witness for C5 at a concrete successful run. -/
theorem C5_kept_count_positive_witness :
    let t : Mesh := ⟨[⟨0, 0, 0⟩, ⟨1, 0, 0⟩, ⟨0, 1, 1⟩], [(0, 1, 2)]⟩
    let spl : Mesh → Except Err (List Mesh) := fun _ => Except.ok [t]
    let rnd : Mesh → RViews := fun _ => whiteViews
    reduce_geometry spl rnd t (1/100) (1/1000) = Except.ok (t, 1, 0) ∧
      1 ≤ 1 := by
  intro t spl rnd
  have hrun : reduce_geometry spl rnd t (1/100) (1/1000) = Except.ok (t, 1, 0) := by
    with_unfolding_all decide
  exact ⟨hrun, C5_kept_count_positive spl rnd t (1/100) (1/1000) t 1 0 hrun⟩

/-! ### C1 -/

lemma decide_pixelCovered (p : Pixel) :
    decide (pixelCovered p) = decide ((p.r + p.g + p.b) / 3 < 250) := rfl

lemma countMaskDiff_eq_coverage (b c : Image) :
    countMaskDiff (binary_mask b) (binary_mask c) = countCoverageDiffs b c := by
  unfold countMaskDiff countCoverageDiffs binary_mask
  simp only [decide_pixelCovered]
  induction b generalizing c with
  | nil => cases c <;> rfl
  | cons p ps ih =>
      cases c with
      | nil => rfl
      | cons q qs =>
          simp only [List.map_cons, List.zip_cons_cons, List.filter_cons]
          by_cases hd : ((decide ((p.r + p.g + p.b) / 3 < 250)) !=
              (decide ((q.r + q.g + q.b) / 3 < 250))) = true
          · rw [if_pos hd, if_pos hd]
            simp only [List.length_cons, ih qs]
          · rw [if_neg hd, if_neg hd]
            exact ih qs

lemma views_within_threshold_iff (bv cv : RViews) (θ : ℚ) :
    views_within_threshold bv cv θ = true ↔
      ((countCoverageDiffs bv.front cv.front : ℚ) / (bv.front.length : ℚ) ≤ θ ∧
        (countCoverageDiffs bv.left cv.left : ℚ) / (bv.left.length : ℚ) ≤ θ ∧
        (countCoverageDiffs bv.right cv.right : ℚ) / (bv.right.length : ℚ) ≤ θ) := by
  unfold views_within_threshold difference_ratio
  rw [countMaskDiff_eq_coverage, countMaskDiff_eq_coverage,
    countMaskDiff_eq_coverage]
  have hlen : ∀ img : Image, ((binary_mask img).length : ℚ) = (img.length : ℚ) := by
    intro img
    unfold binary_mask
    rw [List.length_map]
  rw [hlen, hlen, hlen]
  simp [Bool.and_eq_true, decide_eq_true_eq, and_assoc]

/-- C1: for every removal candidate actually tested by the loop body (the
candidate kept-set is nonempty), the removal is accepted — kept flags
replaced by the candidate flags and the baseline views replaced by the
candidate's renders — if and only if for each of the three views the
pixel-difference ratio (number of pixels whose covered classification,
mean of the RGB channels below 250, differs between baseline and
candidate, divided by the total pixel count) is at most the threshold; and
if some view's ratio exceeds the threshold, the kept flags and baseline
views stay unchanged (only the considered flag is set). -/
theorem C1_accept_iff_ratio (render : Mesh → RViews) (θ : ℚ)
    (comps : List Mesh) (s : RState) (i : Nat)
    (hi : i < s.kept.length) (hki : s.kept.getD i false = true)
    (hne : filterFlags (s.kept.set i false) comps ≠ []) :
    (iterStep render θ comps s i =
        ⟨s.kept.set i false, s.considered.set i true,
          render (mergeList (filterFlags (s.kept.set i false) comps))⟩ ↔
      ((countCoverageDiffs s.views.front
            (render (mergeList (filterFlags (s.kept.set i false) comps))).front : ℚ) /
          (s.views.front.length : ℚ) ≤ θ ∧
        (countCoverageDiffs s.views.left
            (render (mergeList (filterFlags (s.kept.set i false) comps))).left : ℚ) /
          (s.views.left.length : ℚ) ≤ θ ∧
        (countCoverageDiffs s.views.right
            (render (mergeList (filterFlags (s.kept.set i false) comps))).right : ℚ) /
          (s.views.right.length : ℚ) ≤ θ)) ∧
    (¬ ((countCoverageDiffs s.views.front
            (render (mergeList (filterFlags (s.kept.set i false) comps))).front : ℚ) /
          (s.views.front.length : ℚ) ≤ θ ∧
        (countCoverageDiffs s.views.left
            (render (mergeList (filterFlags (s.kept.set i false) comps))).left : ℚ) /
          (s.views.left.length : ℚ) ≤ θ ∧
        (countCoverageDiffs s.views.right
            (render (mergeList (filterFlags (s.kept.set i false) comps))).right : ℚ) /
          (s.views.right.length : ℚ) ≤ θ) →
      iterStep render θ comps s i = ⟨s.kept, s.considered.set i true, s.views⟩) := by
  have hkept_ne : s.kept.set i false ≠ s.kept := by
    intro heq
    have h1 : (s.kept.set i false).getD i false = false := by
      rw [List.getD_eq_getElem _ _ (by simpa using hi), List.getElem_set_self]
    rw [heq, hki] at h1
    cases h1
  unfold iterStep
  rw [if_neg (by simpa using hne)]
  by_cases hv : views_within_threshold s.views
      (render (mergeList (filterFlags (s.kept.set i false) comps))) θ = true
  · rw [if_pos hv]
    have hspec := (views_within_threshold_iff _ _ _).mp hv
    exact ⟨⟨fun _ => hspec, fun _ => rfl⟩, fun h => absurd hspec h⟩
  · rw [if_neg hv]
    constructor
    · constructor
      · intro heq
        have := congrArg RState.kept heq
        exact absurd this.symm hkept_ne
      · intro hspec
        exact absurd ((views_within_threshold_iff _ _ _).mpr hspec) hv
    · intro _
      rfl

/-- Witness for C1: a two-component state where removing the first
component is accepted (zero differing pixels under a constant oracle). -/
theorem C1_accept_iff_ratio_witness :
    let mA : Mesh := ⟨[⟨-1, 0, 0⟩, ⟨-1, 1, 0⟩, ⟨-1, 0, 1⟩], [(0, 1, 2)]⟩
    let mB : Mesh := ⟨[⟨1, 0, 0⟩, ⟨1, 1, 0⟩, ⟨1, 0, 1⟩], [(0, 1, 2)]⟩
    let rnd : Mesh → RViews := fun _ => whiteViews
    iterStep rnd (1/1000) [mA, mB]
        ⟨[true, true], [false, false], whiteViews⟩ 0 =
      ⟨[false, true], [true, false], whiteViews⟩ := by
  intro mA mB rnd
  exact (C1_accept_iff_ratio rnd (1/1000) [mA, mB]
      ⟨[true, true], [false, false], whiteViews⟩ 0
      (by decide) (by decide) (by with_unfolding_all decide)).1.mpr
    (by with_unfolding_all decide)

/-! ### C8 -/

lemma foldl_min_add (l : List ℚ) (x a : ℚ) :
    (l.map (· + a)).foldl min (x + a) = l.foldl min x + a := by
  induction l generalizing x with
  | nil => rfl
  | cons y ys ih =>
      simp only [List.map_cons, List.foldl_cons]
      rw [min_add_add_right]
      exact ih (min x y)

lemma foldl_max_add (l : List ℚ) (x a : ℚ) :
    (l.map (· + a)).foldl max (x + a) = l.foldl max x + a := by
  induction l generalizing x with
  | nil => rfl
  | cons y ys ih =>
      simp only [List.map_cons, List.foldl_cons]
      rw [max_add_add_right]
      exact ih (max x y)

lemma minList_map_add {l : List ℚ} (a : ℚ) (h : l ≠ []) :
    minList (l.map (· + a)) = minList l + a := by
  cases l with
  | nil => exact absurd rfl h
  | cons x xs =>
      simp only [List.map_cons, minList]
      exact foldl_min_add xs x a

lemma maxList_map_add {l : List ℚ} (a : ℚ) (h : l ≠ []) :
    maxList (l.map (· + a)) = maxList l + a := by
  cases l with
  | nil => exact absurd rfl h
  | cons x xs =>
      simp only [List.map_cons, maxList]
      exact foldl_max_add xs x a

lemma project_translate (basis : Basis2) (m : Mesh) (t : Vec3) :
    project_vertices basis (translateMesh t m) =
      (project_vertices basis m).map fun p =>
        (p.1 + dot3 t basis.r, p.2 + dot3 t basis.u) := by
  unfold project_vertices translateMesh
  simp only [List.map_map]
  apply List.map_congr_left
  intro v hv
  simp only [Function.comp, Prod.mk.injEq]
  constructor <;> (unfold dot3; dsimp; ring)

lemma windowX_shift (pts : List (ℚ × ℚ)) (dx dy : ℚ) (h : pts ≠ []) :
    windowX (pts.map fun p => (p.1 + dx, p.2 + dy)) =
      ((windowX pts).1 + dx, (windowX pts).2 + dx) := by
  unfold windowX
  have hf : ((pts.map fun p => (p.1 + dx, p.2 + dy)).map Prod.fst) =
      (pts.map Prod.fst).map (· + dx) := by
    simp only [List.map_map]
    rfl
  have hmap_ne : pts.map Prod.fst ≠ [] := by
    simpa using h
  rw [hf, minList_map_add dx hmap_ne, maxList_map_add dx hmap_ne]
  have hspan : maxList (pts.map Prod.fst) + dx - (minList (pts.map Prod.fst) + dx) =
      maxList (pts.map Prod.fst) - minList (pts.map Prod.fst) := by ring
  rw [hspan]
  simp only [Prod.mk.injEq]
  constructor <;> ring

lemma windowY_shift (pts : List (ℚ × ℚ)) (dx dy : ℚ) (h : pts ≠ []) :
    windowY (pts.map fun p => (p.1 + dx, p.2 + dy)) =
      ((windowY pts).1 + dy, (windowY pts).2 + dy) := by
  unfold windowY
  have hf : ((pts.map fun p => (p.1 + dx, p.2 + dy)).map Prod.snd) =
      (pts.map Prod.snd).map (· + dy) := by
    simp only [List.map_map]
    rfl
  have hmap_ne : pts.map Prod.snd ≠ [] := by
    simpa using h
  rw [hf, minList_map_add dy hmap_ne, maxList_map_add dy hmap_ne]
  have hspan : maxList (pts.map Prod.snd) + dy - (minList (pts.map Prod.snd) + dy) =
      maxList (pts.map Prod.snd) - minList (pts.map Prod.snd) := by ring
  rw [hspan]
  simp only [Prod.mk.injEq]
  constructor <;> ring

lemma faces2d_translate (basis : Basis2) (m : Mesh) (t : Vec3)
    (hfaces : ∀ f ∈ m.faces, f.1 < m.verts.length ∧ f.2.1 < m.verts.length ∧
      f.2.2 < m.verts.length) :
    faces2d basis (translateMesh t m) =
      (faces2d basis m).map fun tri =>
        ((tri.1.1 + dot3 t basis.r, tri.1.2 + dot3 t basis.u),
          (tri.2.1.1 + dot3 t basis.r, tri.2.1.2 + dot3 t basis.u),
          (tri.2.2.1 + dot3 t basis.r, tri.2.2.2 + dot3 t basis.u)) := by
  unfold faces2d
  rw [project_translate]
  show m.faces.map _ = (m.faces.map _).map _
  rw [List.map_map]
  apply List.map_congr_left
  intro f hf
  obtain ⟨h1, h2, h3⟩ := hfaces f hf
  have hlen : (project_vertices basis m).length = m.verts.length := by
    unfold project_vertices
    rw [List.length_map]
  have hg : ∀ k, k < m.verts.length →
      ((project_vertices basis m).map fun p =>
          (p.1 + dot3 t basis.r, p.2 + dot3 t basis.u)).getD k (0, 0) =
        (((project_vertices basis m).getD k (0, 0)).1 + dot3 t basis.r,
          ((project_vertices basis m).getD k (0, 0)).2 + dot3 t basis.u) := by
    intro k hk
    have hb : k < ((project_vertices basis m).map fun p =>
        (p.1 + dot3 t basis.r, p.2 + dot3 t basis.u)).length := by
      rw [List.length_map, hlen]
      exact hk
    rw [List.getD_eq_getElem _ _ hb, List.getElem_map,
      List.getD_eq_getElem _ _ (by rw [hlen]; exact hk)]
  simp only [Function.comp]
  rw [hg f.1 h1, hg f.2.1 h2, hg f.2.2 h3]

lemma occupancy_translate
    (R : List ((ℚ × ℚ) × (ℚ × ℚ) × (ℚ × ℚ)) → ℚ → ℚ → List Bool)
    (basis : Basis2) (m : Mesh) (t : Vec3)
    (hne : m.verts ≠ [])
    (hfaces : ∀ f ∈ m.faces, f.1 < m.verts.length ∧ f.2.1 < m.verts.length ∧
      f.2.2 < m.verts.length) :
    occupancy_mask R basis (translateMesh t m) = occupancy_mask R basis m := by
  have hpne : project_vertices basis m ≠ [] := by
    unfold project_vertices
    simpa using hne
  unfold occupancy_mask relFaces
  rw [project_translate, faces2d_translate _ _ _ hfaces,
    windowX_shift _ _ _ hpne, windowY_shift _ _ _ hpne, List.map_map]
  have hw : (windowX (project_vertices basis m)).2 + dot3 t basis.r -
      ((windowX (project_vertices basis m)).1 + dot3 t basis.r) =
      (windowX (project_vertices basis m)).2 -
        (windowX (project_vertices basis m)).1 := by ring
  have hh : (windowY (project_vertices basis m)).2 + dot3 t basis.u -
      ((windowY (project_vertices basis m)).1 + dot3 t basis.u) =
      (windowY (project_vertices basis m)).2 -
        (windowY (project_vertices basis m)).1 := by ring
  rw [hw, hh]
  congr 1
  apply List.map_congr_left
  intro tri _
  simp only [Function.comp, Prod.mk.injEq]
  refine ⟨⟨by ring, by ring⟩, ⟨by ring, by ring⟩, by ring, by ring⟩

/-- C8: for every mesh with at least one vertex (and valid face indices)
and every projection basis, the raster window is the mesh's own projected
bounding box expanded by a 5% margin of the projected span on each axis,
with the fixed absolute margin 1.0 substituted on an axis whose projected
span is zero; consequently, rendering the same mesh translated by an
arbitrary offset produces a bit-identical occupancy mask, because the
window-relative triangle coordinates and the window extents are unchanged
by the translation. -/
theorem C8_window_margin_and_translation
    (R : List ((ℚ × ℚ) × (ℚ × ℚ) × (ℚ × ℚ)) → ℚ → ℚ → List Bool)
    (basis : Basis2) (m : Mesh) (t : Vec3)
    (hne : m.verts ≠ [])
    (hfaces : ∀ f ∈ m.faces, f.1 < m.verts.length ∧ f.2.1 < m.verts.length ∧
      f.2.2 < m.verts.length) :
    ((maxList ((project_vertices basis m).map Prod.fst) -
          minList ((project_vertices basis m).map Prod.fst) = 0 →
        windowX (project_vertices basis m) =
          (minList ((project_vertices basis m).map Prod.fst) - 1,
            maxList ((project_vertices basis m).map Prod.fst) + 1)) ∧
      (maxList ((project_vertices basis m).map Prod.fst) -
          minList ((project_vertices basis m).map Prod.fst) ≠ 0 →
        windowX (project_vertices basis m) =
          (minList ((project_vertices basis m).map Prod.fst) -
              (maxList ((project_vertices basis m).map Prod.fst) -
                minList ((project_vertices basis m).map Prod.fst)) * (5 / 100),
            maxList ((project_vertices basis m).map Prod.fst) +
              (maxList ((project_vertices basis m).map Prod.fst) -
                minList ((project_vertices basis m).map Prod.fst)) * (5 / 100)))) ∧
    ((maxList ((project_vertices basis m).map Prod.snd) -
          minList ((project_vertices basis m).map Prod.snd) = 0 →
        windowY (project_vertices basis m) =
          (minList ((project_vertices basis m).map Prod.snd) - 1,
            maxList ((project_vertices basis m).map Prod.snd) + 1)) ∧
      (maxList ((project_vertices basis m).map Prod.snd) -
          minList ((project_vertices basis m).map Prod.snd) ≠ 0 →
        windowY (project_vertices basis m) =
          (minList ((project_vertices basis m).map Prod.snd) -
              (maxList ((project_vertices basis m).map Prod.snd) -
                minList ((project_vertices basis m).map Prod.snd)) * (5 / 100),
            maxList ((project_vertices basis m).map Prod.snd) +
              (maxList ((project_vertices basis m).map Prod.snd) -
                minList ((project_vertices basis m).map Prod.snd)) * (5 / 100)))) ∧
    occupancy_mask R basis (translateMesh t m) = occupancy_mask R basis m := by
  refine ⟨⟨?_, ?_⟩, ⟨?_, ?_⟩, occupancy_translate R basis m t hne hfaces⟩
  · intro h0
    unfold windowX marginOf
    rw [if_pos (by rw [h0]; ring)]
  · intro h0
    unfold windowX marginOf
    rw [if_neg (mul_ne_zero h0 (by norm_num))]
  · intro h0
    unfold windowY marginOf
    rw [if_pos (by rw [h0]; ring)]
  · intro h0
    unfold windowY marginOf
    rw [if_neg (mul_ne_zero h0 (by norm_num))]

/-- Witness for C8 at a concrete triangle, basis and offset. -/
theorem C8_window_margin_and_translation_witness :
    let m : Mesh := ⟨[⟨0, 0, 0⟩, ⟨2, 0, 0⟩, ⟨0, 0, 3⟩], [(0, 1, 2)]⟩
    let basis : Basis2 := ⟨⟨1, 0, 0⟩, ⟨0, 0, -1⟩⟩
    let t : Vec3 := ⟨5, -7, 11⟩
    let R : List ((ℚ × ℚ) × (ℚ × ℚ) × (ℚ × ℚ)) → ℚ → ℚ → List Bool :=
      fun tris w h => [decide (0 < w), decide (0 < h), decide (tris.length = 1)]
    occupancy_mask R basis (translateMesh t m) = occupancy_mask R basis m := by
  intro m basis t R
  exact (C8_window_margin_and_translation R basis m t (by decide)
    (by decide)).2.2
